import Mathlib

/-!
Verification development for the corpus-te authentication core.

This file shallowly embeds the two modules the claims are about:

* `src/app/services/otp_service.py` (class `OTPService`) together with the
  row model `src/app/models/otp.py` (table `otp`), and
* `src/app/core/rbac_fastapi.py` (permission matrix, role cache,
  `check_access` produced by `create_rbac_dependency`).

Modelling conventions:

* Timestamps are integers measured in minutes, so `now + expiry_minutes`
  translates directly; only order and differences of timestamps matter to
  the code being verified.
* The SQL table is a `List OTPRow`; `select ... where P` is `List.filter`,
  `ORDER BY created_at DESC ... first()` is the first row of maximal
  `created_at`, and the ORM's in-place mutation of a fetched row followed
  by `commit()` is an id-keyed functional update.
* `hmac.new(phone ++ SECRET_KEY, otp, sha256)` is an opaque keyed function
  `hash_otp : String → String → String` carried in the service record;
  `hmac.compare_digest` is functionally string equality (its constant-time
  character is a timing property outside a functional embedding).
* Network effects are passed in as values: `send_otp` receives the
  generated code (the `random` draw) and the SMS gateway outcome
  (`Option String`, `none` = HTTP/timeout/parse failure in
  `send_otp_sms`); the row id that the database would assign is a
  parameter `newId`.
-/

/-- One row of the `otp` table (`app/models/otp.py`): `id` stands for the
generated UUID primary key. -/
structure OTPRow where
  id : Nat
  phone_number : String
  otp_hash : String
  attempts : Nat
  is_verified : Bool
  expires_at : Int
  reference_id : Option String
  created_at : Int
  updated_at : Int
deriving DecidableEq, Repr

/-- The configurable numbers read from `settings` in `OTPService.__init__`. -/
structure OTPSettings where
  expiry_minutes : Nat
  max_attempts : Nat
  rate_limit_minutes : Nat
deriving DecidableEq, Repr

/-- The service object: its settings plus the keyed hash
`hash_otp(otp, phone) = HMAC-SHA256(key = phone ++ SECRET_KEY, msg = otp)`,
kept opaque. -/
structure OTPService where
  cfg : OTPSettings
  hash_otp : String → String → String

/-- `OTPService.verify_otp_hash`: recompute the keyed hash and compare with
the stored one (`hmac.compare_digest`, functionally equality). -/
def OTPService.verify_otp_hash (svc : OTPService) (otp phone_number stored_hash : String) : Bool :=
  svc.hash_otp otp phone_number == stored_hash

/-- The `where` clause of `get_valid_otp`: same phone, unexpired
(`expires_at > now`), unverified, and under the attempt limit
(`attempts < max_attempts`, evaluated before any increment). -/
def eligible (svc : OTPService) (now : Int) (phone_number : String) (r : OTPRow) : Bool :=
  r.phone_number == phone_number
    && decide (now < r.expires_at)
    && !r.is_verified
    && decide (r.attempts < svc.cfg.max_attempts)

/-- `ORDER BY created_at DESC ... .first()` over a list of rows: the first
row of maximal `created_at` (earlier rows win ties, as in a stable sort). -/
def latestOf : List OTPRow → Option OTPRow
  | [] => none
  | r :: rest =>
    match latestOf rest with
    | none => some r
    | some b => if b.created_at > r.created_at then some b else some r

/-- `OTPService.get_valid_otp`: the most recently created eligible row for
the phone, if any. -/
def OTPService.get_valid_otp (svc : OTPService) (db : List OTPRow) (now : Int)
    (phone_number : String) : Option OTPRow :=
  latestOf (db.filter (eligible svc now phone_number))

/-- `OTPService.check_rate_limit`: true iff no row for this phone has
`created_at > now - rate_limit_minutes`. A pure read. -/
def OTPService.check_rate_limit (svc : OTPService) (db : List OTPRow) (now : Int)
    (phone_number : String) : Bool :=
  !(db.any fun r =>
    r.phone_number == phone_number
      && decide (r.created_at > now - (svc.cfg.rate_limit_minutes : Int)))

/-- The id-keyed write-back of a mutated ORM row at `commit()` time. -/
def updateRow (db : List OTPRow) (rid : Nat) (r' : OTPRow) : List OTPRow :=
  db.map fun x => if x.id == rid then r' else x

/-- Find the row with a given id (`None` if absent). -/
def findById (db : List OTPRow) (rid : Nat) : Option OTPRow :=
  db.find? fun x => x.id == rid

/-- Outcome of `OTPService.send_otp`: the three `status` dictionaries it
can return. -/
inductive SendResult where
  | rateLimited
  | gatewayFailure
  | sent (reference_id : String)
deriving DecidableEq, Repr

/-- `OTPService.send_otp`: refuse when rate-limited (no write), refuse when
the SMS gateway fails (no write), otherwise persist a fresh row with the
keyed hash, `attempts = 0`, `is_verified = false`,
`expires_at = now + expiry_minutes` and the gateway reference id.
`otp_code` is the drawn random code, `sms_response` the gateway outcome,
`newId` the id the insert assigns. -/
def OTPService.send_otp (svc : OTPService) (db : List OTPRow) (now : Int)
    (phone_number otp_code : String) (sms_response : Option String) (newId : Nat) :
    SendResult × List OTPRow :=
  if !svc.check_rate_limit db now phone_number then
    (.rateLimited, db)
  else
    match sms_response with
    | none => (.gatewayFailure, db)
    | some ref =>
      (.sent ref, db ++ [{ id := newId
                           phone_number := phone_number
                           otp_hash := svc.hash_otp otp_code phone_number
                           attempts := 0
                           is_verified := false
                           expires_at := now + (svc.cfg.expiry_minutes : Int)
                           reference_id := some ref
                           created_at := now
                           updated_at := now }])

/-- `OTPService.verify_otp`: fetch the most recent eligible row; if none,
return false with no write. Otherwise increment its attempt counter; if the
new count exceeds `max_attempts`, commit and return false; if the keyed
hash of the submitted code differs from the stored hash, commit and return
false; otherwise mark the row verified, stamp `updated_at`, commit and
return true. -/
def OTPService.verify_otp (svc : OTPService) (db : List OTPRow) (now : Int)
    (phone_number otp_code : String) : Bool × List OTPRow :=
  match svc.get_valid_otp db now phone_number with
  | none => (false, db)
  | some r =>
    let r1 : OTPRow := { r with attempts := r.attempts + 1 }
    if r1.attempts > svc.cfg.max_attempts then
      (false, updateRow db r.id r1)
    else if !svc.verify_otp_hash otp_code phone_number r.otp_hash then
      (false, updateRow db r.id r1)
    else
      (true, updateRow db r.id { r1 with is_verified := true, updated_at := now })

/-- `OTPService.invalidate_otp`: mark every unverified row of this phone as
verified (stamping `updated_at`); all other rows are untouched. -/
def OTPService.invalidate_otp (_svc : OTPService) (db : List OTPRow) (now : Int)
    (phone_number : String) : List OTPRow :=
  db.map fun r =>
    if r.phone_number == phone_number && !r.is_verified then
      { r with is_verified := true, updated_at := now }
    else r

/-!
## RBAC (`app/core/rbac_fastapi.py`)

The role cache (`functools.lru_cache(maxsize=128)` on
`get_user_roles_cached`) is a finite map from stringified user id to the
tuple of role names; a miss runs the join query, modelled as the ambient
function `store : String → List String` giving the current role
assignments. LRU eviction at the 128-entry bound only removes entries, so
it is not represented: every property below concerns hits, misses and the
unconditional `cache_clear()`.
-/

/-- The static `PERMISSION_MATRIX` of `rbac_fastapi.py`, verbatim. -/
def PERMISSION_MATRIX : List (String × List (String × List String)) :=
  [ ("admin",
      [ ("users", ["GET", "POST", "PUT", "DELETE"])
      , ("records", ["GET", "POST", "PUT", "DELETE"])
      , ("categories", ["GET", "POST", "PUT", "DELETE"]) ])
  , ("reviewer",
      [ ("users", ["GET"])
      , ("records", ["GET", "PUT"])
      , ("categories", ["GET"]) ])
  , ("user",
      [ ("records", ["GET", "POST", "PUT"])
      , ("categories", ["GET"]) ]) ]

/-- Python's `str.lower()` for the ASCII names involved: per-character
lower-casing. -/
def strLower (s : String) : String := ⟨s.data.map Char.toLower⟩

/-- Python's `str.upper()` for the ASCII names involved: per-character
upper-casing. -/
def strUpper (s : String) : String := ⟨s.data.map Char.toUpper⟩

/-- `has_permission(user_roles, resource, method)`: some role of the user
has a matrix entry for the (lower-cased) resource containing the
(upper-cased) method. -/
def has_permission (user_roles : List String) (resource method : String) : Bool :=
  user_roles.any fun role =>
    match PERMISSION_MATRIX.find? (fun p => p.1 == strLower role) with
    | none => false
    | some (_, resources) =>
      match resources.find? (fun p => p.1 == strLower resource) with
      | none => false
      | some (_, methods) => methods.contains (strUpper method)

/-- The role cache: stringified user id ↦ cached tuple of role names. -/
abbrev RoleCache := List (String × List String)

/-- Cache lookup by user id. -/
def cacheLookup (c : RoleCache) (user_id : String) : Option (List String) :=
  (c.find? fun p => p.1 == user_id).map (·.2)

/-- `get_user_roles_cached(user_id)`: on a hit return the cached tuple and
leave the cache alone; on a miss run the join query (`store`), cache the
result and return it. -/
def get_user_roles_cached (store : String → List String) (c : RoleCache)
    (user_id : String) : List String × RoleCache :=
  match cacheLookup c user_id with
  | some role_names => (role_names, c)
  | none => (store user_id, (user_id, store user_id) :: c)

/-- `clear_role_cache()`: `cache_clear()` empties the whole cache. -/
def clear_role_cache (_c : RoleCache) : RoleCache := []

/-- The principal as `check_access` sees it: `current_user.id` (already
stringified) and `current_user.is_active`. -/
structure UserP where
  id : String
  is_active : Bool
deriving DecidableEq, Repr

/-- Outcome of the `check_access` dependency: pass the user through, or
raise 401 (inactive account), or raise 403 (both checks failed). -/
inductive AccessResult where
  | granted
  | unauthorized
  | forbidden
deriving DecidableEq, Repr

/-- Python truthiness of the `roles` argument (`None`, `[]` and `""` are
falsy; a plain string argument is normalised to a singleton list). -/
def rolesTruthy : Option (List String) → Bool
  | some (_ :: _) => true
  | _ => false

/-- Python truthiness of an optional string argument. -/
def strTruthy : Option String → Bool
  | some s => !s.isEmpty
  | none => false

/-- `check_access` as produced by
`create_rbac_dependency(roles, resource, method)`: reject inactive users;
with no restriction supplied just require an active user; otherwise grant
when the required-roles check or the permission-matrix check passes, and
raise 403 when both fail. `resolve` is `get_user_roles` (the cached role
query). -/
def check_access (roles : Option (List String)) (resource method : Option String)
    (resolve : String → List String) (current_user : UserP) : AccessResult :=
  if !current_user.is_active then .unauthorized
  else
    let user_roles := resolve current_user.id
    if !rolesTruthy roles && !(strTruthy resource && strTruthy method) then .granted
    else if rolesTruthy roles
        && (roles.getD []).any (fun role => user_roles.contains role) then .granted
    else if strTruthy resource && strTruthy method
        && has_permission user_roles (resource.getD "") (method.getD "") then .granted
    else .forbidden

/-!
## Basic lemmas about the embedded operations
-/

theorem latestOf_eq_none {l : List OTPRow} : latestOf l = none ↔ l = [] := by
  cases l with
  | nil => simp [latestOf]
  | cons a t =>
    cases ht : latestOf t with
    | none => simp [latestOf, ht]
    | some b =>
      simp only [latestOf, ht]
      split <;> simp

theorem latestOf_mem {l : List OTPRow} {r : OTPRow} (h : latestOf l = some r) : r ∈ l := by
  induction l with
  | nil => simp [latestOf] at h
  | cons a t ih =>
    cases ht : latestOf t with
    | none =>
      simp only [latestOf, ht, Option.some.injEq] at h
      exact h ▸ List.mem_cons_self a t
    | some b =>
      simp only [latestOf, ht] at h
      split at h
      · injection h with h
        exact List.mem_cons_of_mem a (ih (h ▸ ht))
      · injection h with h
        exact h ▸ List.mem_cons_self a t

theorem latestOf_max {l : List OTPRow} :
    ∀ {r : OTPRow}, latestOf l = some r → ∀ x ∈ l, x.created_at ≤ r.created_at := by
  induction l with
  | nil => intro r h; simp [latestOf] at h
  | cons a t ih =>
    intro r h x hx
    cases ht : latestOf t with
    | none =>
      simp only [latestOf, ht, Option.some.injEq] at h
      rcases List.mem_cons.mp hx with hxa | hxt
      · exact le_of_eq (by rw [hxa, h])
      · exact absurd (latestOf_eq_none.mp ht ▸ hxt) (List.not_mem_nil x)
    | some b =>
      simp only [latestOf, ht] at h
      rcases List.mem_cons.mp hx with hxa | hxt
      · split at h
        · next hgt =>
          injection h with h
          exact le_of_lt (by rw [hxa, ← h]; exact hgt)
        · injection h with h
          exact le_of_eq (by rw [hxa, h])
      · split at h
        · injection h with h
          exact ih (h ▸ ht) x hxt
        · next hgt =>
          injection h with h
          calc x.created_at ≤ b.created_at := ih ht x hxt
            _ ≤ r.created_at := h ▸ le_of_not_lt hgt

theorem eligible_iff {svc : OTPService} {now : Int} {p : String} {r : OTPRow} :
    eligible svc now p r = true ↔
      r.phone_number = p ∧ now < r.expires_at ∧ r.is_verified = false ∧
        r.attempts < svc.cfg.max_attempts := by
  simp [eligible, Bool.and_eq_true, decide_eq_true_iff, Bool.not_eq_true', and_assoc]

theorem get_valid_otp_some {svc : OTPService} {db : List OTPRow} {now : Int}
    {p : String} {r : OTPRow} (h : svc.get_valid_otp db now p = some r) :
    r ∈ db ∧ eligible svc now p r = true := by
  have hm := latestOf_mem h
  exact ⟨List.mem_of_mem_filter hm, List.of_mem_filter hm⟩

theorem get_valid_otp_latest {svc : OTPService} {db : List OTPRow} {now : Int}
    {p : String} {r : OTPRow} (h : svc.get_valid_otp db now p = some r) :
    ∀ x ∈ db, eligible svc now p x = true → x.created_at ≤ r.created_at := by
  intro x hx he
  exact latestOf_max h x (List.mem_filter.mpr ⟨hx, he⟩)

theorem get_valid_otp_eq_none {svc : OTPService} {db : List OTPRow} {now : Int}
    {p : String} :
    svc.get_valid_otp db now p = none ↔ ∀ x ∈ db, eligible svc now p x = false := by
  rw [OTPService.get_valid_otp, latestOf_eq_none, List.filter_eq_nil_iff]
  simp

theorem findById_updateRow {db : List OTPRow} {rid : Nat} {r' : OTPRow}
    (hrid : r'.id = rid) (hex : ∃ x ∈ db, x.id = rid) :
    findById (updateRow db rid r') rid = some r' := by
  induction db with
  | nil => simp at hex
  | cons a t ih =>
    by_cases ha : a.id = rid
    · simp [updateRow, findById, ha, hrid]
    · rcases hex with ⟨x, hx, hxid⟩
      rcases List.mem_cons.mp hx with hxa | hxt
      · exact absurd (hxa ▸ hxid) ha
      · have := ih ⟨x, hxt, hxid⟩
        simpa [updateRow, findById, ha] using this

theorem mem_updateRow_of_ne {db : List OTPRow} {rid : Nat} {r' x : OTPRow}
    (hx : x ∈ db) (hne : x.id ≠ rid) : x ∈ updateRow db rid r' := by
  have : (if x.id == rid then r' else x) = x := by simp [hne]
  exact this ▸ List.mem_map_of_mem _ hx

theorem verify_otp_of_none {svc : OTPService} {db : List OTPRow} {now : Int}
    {phone code : String} (h : svc.get_valid_otp db now phone = none) :
    svc.verify_otp db now phone code = (false, db) := by
  simp [OTPService.verify_otp, h]

theorem verify_otp_of_guard {svc : OTPService} {db : List OTPRow} {now : Int}
    {phone code : String} {r : OTPRow} (h : svc.get_valid_otp db now phone = some r)
    (hg : r.attempts + 1 > svc.cfg.max_attempts) :
    svc.verify_otp db now phone code =
      (false, updateRow db r.id { r with attempts := r.attempts + 1 }) := by
  simp [OTPService.verify_otp, h, hg]

theorem verify_otp_of_wrong {svc : OTPService} {db : List OTPRow} {now : Int}
    {phone code : String} {r : OTPRow} (h : svc.get_valid_otp db now phone = some r)
    (hg : ¬ r.attempts + 1 > svc.cfg.max_attempts)
    (hh : svc.hash_otp code phone ≠ r.otp_hash) :
    svc.verify_otp db now phone code =
      (false, updateRow db r.id { r with attempts := r.attempts + 1 }) := by
  simp [OTPService.verify_otp, OTPService.verify_otp_hash, h, hg, hh]

theorem verify_otp_of_right {svc : OTPService} {db : List OTPRow} {now : Int}
    {phone code : String} {r : OTPRow} (h : svc.get_valid_otp db now phone = some r)
    (hg : ¬ r.attempts + 1 > svc.cfg.max_attempts)
    (hh : svc.hash_otp code phone = r.otp_hash) :
    svc.verify_otp db now phone code =
      (true, updateRow db r.id
        { r with attempts := r.attempts + 1, is_verified := true, updated_at := now }) := by
  simp [OTPService.verify_otp, OTPService.verify_otp_hash, h, hg, hh]

theorem check_rate_limit_iff {svc : OTPService} {db : List OTPRow} {now : Int}
    {phone : String} :
    svc.check_rate_limit db now phone = true ↔
      ∀ r ∈ db, r.phone_number = phone →
        r.created_at ≤ now - (svc.cfg.rate_limit_minutes : Int) := by
  simp [OTPService.check_rate_limit, List.any_eq_false, not_lt]

theorem send_otp_of_rateLimited {svc : OTPService} {db : List OTPRow} {now : Int}
    {phone code : String} {sms : Option String} {newId : Nat}
    (h : svc.check_rate_limit db now phone = false) :
    svc.send_otp db now phone code sms newId = (.rateLimited, db) := by
  simp [OTPService.send_otp, h]

theorem send_otp_of_gatewayFailure {svc : OTPService} {db : List OTPRow} {now : Int}
    {phone code : String} {newId : Nat}
    (h : svc.check_rate_limit db now phone = true) :
    svc.send_otp db now phone code none newId = (.gatewayFailure, db) := by
  simp [OTPService.send_otp, h]

theorem send_otp_of_sent {svc : OTPService} {db : List OTPRow} {now : Int}
    {phone code ref : String} {newId : Nat}
    (h : svc.check_rate_limit db now phone = true) :
    svc.send_otp db now phone code (some ref) newId =
      (.sent ref, db ++ [{ id := newId
                           phone_number := phone
                           otp_hash := svc.hash_otp code phone
                           attempts := 0
                           is_verified := false
                           expires_at := now + (svc.cfg.expiry_minutes : Int)
                           reference_id := some ref
                           created_at := now
                           updated_at := now }]) := by
  simp [OTPService.send_otp, h]

/-!
## Concrete instances used to evaluate the theorems
-/

/-- A service with the spec defaults (`expiry_minutes = 5`,
`max_attempts = 3`, `rate_limit_minutes = 1`) and a concrete stand-in for
the opaque keyed hash. -/
def svcEx : OTPService :=
  { cfg := { expiry_minutes := 5, max_attempts := 3, rate_limit_minutes := 1 }
  , hash_otp := fun otp phone => otp ++ ":" ++ phone }

/-- A sample phone number. -/
def phoneEx : String := "+911234500000"

/-- The row `send_otp` would persist for `phoneEx` at time 0 with code
`123456`. -/
def rowEx : OTPRow :=
  { id := 1
    phone_number := phoneEx
    otp_hash := svcEx.hash_otp "123456" phoneEx
    attempts := 0
    is_verified := false
    expires_at := 5
    reference_id := some "ref1"
    created_at := 0
    updated_at := 0 }

/-- A one-row table holding `rowEx`. -/
def dbEx : List OTPRow := [rowEx]

/-!
## The claims
-/

/-- C2: `send_otp` persists a new OTP row (attempts 0, unverified,
`expires_at = now + expiry_minutes`, the gateway reference id) if and only
if the rate-limit check passes and the SMS gateway call succeeds; when
rate-limited it returns the rate-limit error without writing, and when the
gateway fails it returns a failure with no row written. -/
theorem C2_send_challenge_persistence (svc : OTPService) (db : List OTPRow) (now : Int)
    (phone code : String) (sms : Option String) (newId : Nat) :
    (svc.check_rate_limit db now phone = false →
      svc.send_otp db now phone code sms newId = (.rateLimited, db)) ∧
    (svc.check_rate_limit db now phone = true → sms = none →
      svc.send_otp db now phone code sms newId = (.gatewayFailure, db)) ∧
    (∀ ref, svc.check_rate_limit db now phone = true → sms = some ref →
      svc.send_otp db now phone code sms newId =
        (.sent ref, db ++ [{ id := newId
                             phone_number := phone
                             otp_hash := svc.hash_otp code phone
                             attempts := 0
                             is_verified := false
                             expires_at := now + (svc.cfg.expiry_minutes : Int)
                             reference_id := some ref
                             created_at := now
                             updated_at := now }])) :=
  ⟨fun h => send_otp_of_rateLimited h,
   fun h1 h2 => h2 ▸ send_otp_of_gatewayFailure h1,
   fun _ h1 h2 => by subst h2; exact send_otp_of_sent h1⟩

/-- Witness for C2 at a concrete input: an empty table passes the rate
limit, and a successful gateway call persists exactly the expected row. -/
theorem C2_send_challenge_persistence_witness :
    svcEx.check_rate_limit [] 0 phoneEx = true ∧
    svcEx.send_otp [] 0 phoneEx "123456" (some "ref1") 1 =
      (.sent "ref1", [] ++ [{ id := 1
                              phone_number := phoneEx
                              otp_hash := svcEx.hash_otp "123456" phoneEx
                              attempts := 0
                              is_verified := false
                              expires_at := 0 + (svcEx.cfg.expiry_minutes : Int)
                              reference_id := some "ref1"
                              created_at := 0
                              updated_at := 0 }]) :=
  ⟨rfl, (C2_send_challenge_persistence svcEx [] 0 phoneEx "123456" (some "ref1") 1).2.2
    "ref1" rfl rfl⟩

/-- C6: invalidation never changes the outcome of the rate-limit check
(it touches only `is_verified` and `updated_at`, never `created_at`), so
`invalidate_otp` followed immediately by `send_otp` is still rate-limited
whenever the original send was inside the window. -/
theorem C6_invalidate_keeps_rate_limit (svc : OTPService) (db : List OTPRow)
    (tInv now : Int) (phone phone2 : String) :
    (svc.check_rate_limit (svc.invalidate_otp db tInv phone2) now phone =
      svc.check_rate_limit db now phone) ∧
    (svc.check_rate_limit db now phone = false →
      ∀ code sms newId,
        svc.send_otp (svc.invalidate_otp db tInv phone) now phone code sms newId =
          (.rateLimited, svc.invalidate_otp db tInv phone)) := by
  have key : ∀ p2 : String,
      svc.check_rate_limit (svc.invalidate_otp db tInv p2) now phone =
        svc.check_rate_limit db now phone := by
    intro p2
    simp only [OTPService.check_rate_limit, OTPService.invalidate_otp, List.any_map]
    congr 1
    refine congrArg db.any (funext fun r => ?_)
    cases hc : r.phone_number == p2 && !r.is_verified <;> simp [hc, Function.comp]
  exact ⟨key phone2,
    fun h code sms newId => send_otp_of_rateLimited ((key phone).trans h)⟩

/-- Witness for C6 at a concrete input: with a row just created, the phone
is rate-limited, and it stays rate-limited right after invalidation. -/
theorem C6_invalidate_keeps_rate_limit_witness :
    svcEx.check_rate_limit dbEx 0 phoneEx = false ∧
    svcEx.send_otp (svcEx.invalidate_otp dbEx 0 phoneEx) 0 phoneEx "222222" (some "r2") 2 =
      (.rateLimited, svcEx.invalidate_otp dbEx 0 phoneEx) :=
  ⟨rfl, (C6_invalidate_keeps_rate_limit svcEx dbEx 0 0 phoneEx phoneEx).2 rfl
    "222222" (some "r2") 2⟩

/-- C7: `check_rate_limit` is true iff no row of the phone has
`created_at` inside the last `rate_limit_minutes` (it is a pure read:
it returns a Boolean and takes no state), so a second send inside the
window is rate-limited and a send after the window (with a successful
gateway call) goes through again. -/
theorem C7_rate_limit_window (svc : OTPService) (db : List OTPRow) (now : Int)
    (phone : String) :
    (svc.check_rate_limit db now phone = true ↔
      ∀ r ∈ db, r.phone_number = phone →
        r.created_at ≤ now - (svc.cfg.rate_limit_minutes : Int)) ∧
    (∀ c1 ref1 i1 t1 c2 s2 i2,
      svc.check_rate_limit db now phone = true →
      now > t1 - (svc.cfg.rate_limit_minutes : Int) →
      svc.send_otp (svc.send_otp db now phone c1 (some ref1) i1).2 t1 phone c2 s2 i2 =
        (.rateLimited, (svc.send_otp db now phone c1 (some ref1) i1).2)) ∧
    (∀ c1 ref1 i1 t2 c2 ref2 i2,
      svc.check_rate_limit db now phone = true →
      (∀ r ∈ db, r.phone_number = phone →
        r.created_at ≤ t2 - (svc.cfg.rate_limit_minutes : Int)) →
      now ≤ t2 - (svc.cfg.rate_limit_minutes : Int) →
      (svc.send_otp (svc.send_otp db now phone c1 (some ref1) i1).2 t2 phone c2
          (some ref2) i2).1 = .sent ref2) := by
  refine ⟨check_rate_limit_iff, ?_, ?_⟩
  · intro c1 ref1 i1 t1 c2 s2 i2 h1 hwin
    rw [send_otp_of_sent h1]
    refine send_otp_of_rateLimited (Bool.eq_false_iff.mpr fun hc => ?_)
    have hle := check_rate_limit_iff.mp hc
      { id := i1
        phone_number := phone
        otp_hash := svc.hash_otp c1 phone
        attempts := 0
        is_verified := false
        expires_at := now + (svc.cfg.expiry_minutes : Int)
        reference_id := some ref1
        created_at := now
        updated_at := now } (by simp) rfl
    exact absurd hle (not_le.mpr hwin)
  · intro c1 ref1 i1 t2 c2 ref2 i2 h1 hall hnow
    rw [send_otp_of_sent h1]
    have h2 : svc.check_rate_limit
        (db ++ [{ id := i1
                  phone_number := phone
                  otp_hash := svc.hash_otp c1 phone
                  attempts := 0
                  is_verified := false
                  expires_at := now + (svc.cfg.expiry_minutes : Int)
                  reference_id := some ref1
                  created_at := now
                  updated_at := now }]) t2 phone = true := by
      refine check_rate_limit_iff.mpr fun r hr hp => ?_
      rcases List.mem_append.mp hr with hmem | hmem
      · exact hall r hmem hp
      · rw [List.mem_singleton.mp hmem]
        exact hnow
    rw [send_otp_of_sent h2]

/-- Witness for C7 at a concrete input: from an empty table a send at 0
succeeds, a second send at time 0 is rate-limited, and a send at time 1
(the window elapsed) succeeds again. -/
theorem C7_rate_limit_window_witness :
    svcEx.check_rate_limit [] 0 phoneEx = true ∧
    (0 : Int) > 0 - (svcEx.cfg.rate_limit_minutes : Int) ∧
    svcEx.send_otp (svcEx.send_otp [] 0 phoneEx "111111" (some "r1") 1).2 0 phoneEx
        "222222" (some "r2") 2 =
      (.rateLimited, (svcEx.send_otp [] 0 phoneEx "111111" (some "r1") 1).2) ∧
    (svcEx.send_otp (svcEx.send_otp [] 0 phoneEx "111111" (some "r1") 1).2 1 phoneEx
        "222222" (some "r2") 2).1 = .sent "r2" :=
  ⟨rfl, by decide,
   (C7_rate_limit_window svcEx [] 0 phoneEx).2.1 "111111" "r1" 1 0 "222222"
     (some "r2") 2 rfl (by decide),
   (C7_rate_limit_window svcEx [] 0 phoneEx).2.2 "111111" "r1" 1 1 "222222"
     "r2" 2 rfl (by simp) (by decide)⟩

/-- C9: `invalidate_otp` marks every eligible (unverified) row of the phone
as verified, changes nothing of any row except `is_verified` and
`updated_at`, leaves rows of other phones (and already-verified rows)
entirely untouched, and leaves no eligible row for the phone at any time
afterwards. -/
theorem C9_invalidate_consumes_all (svc : OTPService) (db : List OTPRow) (now : Int)
    (phone : String) :
    List.Forall₂ (fun x x' =>
        x'.id = x.id ∧ x'.phone_number = x.phone_number ∧ x'.otp_hash = x.otp_hash ∧
        x'.attempts = x.attempts ∧ x'.expires_at = x.expires_at ∧
        x'.reference_id = x.reference_id ∧ x'.created_at = x.created_at ∧
        (x.phone_number = phone → x.is_verified = false → x'.is_verified = true) ∧
        (x.phone_number ≠ phone ∨ x.is_verified = true → x' = x))
      db (svc.invalidate_otp db now phone) ∧
    (∀ now2, svc.get_valid_otp (svc.invalidate_otp db now phone) now2 phone = none) := by
  constructor
  · induction db with
    | nil => exact List.Forall₂.nil
    | cons a t ih =>
      simp only [OTPService.invalidate_otp, List.map_cons] at ih ⊢
      refine List.Forall₂.cons ?_ ih
      by_cases hc : (a.phone_number == phone && !a.is_verified) = true
      · rw [if_pos hc]
        refine ⟨rfl, rfl, rfl, rfl, rfl, rfl, rfl, fun _ _ => rfl, fun h => ?_⟩
        rw [Bool.and_eq_true] at hc
        rcases h with hp | hv
        · exact absurd (by simpa using hc.1) hp
        · rw [hv] at hc
          simp at hc
      · rw [if_neg hc]
        exact ⟨rfl, rfl, rfl, rfl, rfl, rfl, rfl,
          fun hp hv => absurd (by simp [hp, hv]) hc, fun _ => rfl⟩
  · intro now2
    refine get_valid_otp_eq_none.mpr fun x hx => ?_
    rcases List.mem_map.mp hx with ⟨y, _, hfy⟩
    cases hc : y.phone_number == phone && !y.is_verified
    · rw [hc] at hfy
      simp only [Bool.false_eq_true, if_false] at hfy
      rw [Bool.and_eq_false_iff] at hc
      rcases hc with hc | hc
      · refine Bool.eq_false_iff.mpr fun he => ?_
        exact absurd ((eligible_iff.mp he).1) (by rw [← hfy]; simpa using hc)
      · refine Bool.eq_false_iff.mpr fun he => ?_
        have := (eligible_iff.mp he).2.2.1
        rw [← hfy] at this
        simp [this] at hc
    · rw [hc] at hfy
      simp only [if_true] at hfy
      refine Bool.eq_false_iff.mpr fun he => ?_
      have := (eligible_iff.mp he).2.2.1
      rw [← hfy] at this
      simp at this

/-- C8: `clear_role_cache` empties the whole cache; the next
`get_user_roles_cached` after a clear runs the credential-store query and
returns the current assignments; and before a clear a cached entry can be
stale (a concrete state where the cached roles differ from the store is
exhibited, and the resolver returns the cached value). -/
theorem C8_role_cache_clear (store : String → List String) (c : RoleCache) (x : String) :
    (∀ user_id, cacheLookup (clear_role_cache c) user_id = none) ∧
    (get_user_roles_cached store (clear_role_cache c) x).1 = store x ∧
    (get_user_roles_cached store (clear_role_cache c) x).2 = [(x, store x)] ∧
    (∃ store2 : String → List String, ∃ c2 : RoleCache, ∃ y v,
      cacheLookup c2 y = some v ∧ store2 y ≠ v ∧
      (get_user_roles_cached store2 c2 y).1 = v) := by
  refine ⟨fun _ => rfl, rfl, rfl,
    fun _ => ["admin"], [("u1", ["user"])], "u1", ["user"], rfl, by decide, rfl⟩

/-- C3: for an active principal given both a required-role list and a
(resource, method) pair, `check_access` grants access iff some required
role is among the principal's roles OR some of the principal's roles has a
matrix entry for the resource containing the method; in particular a
principal whose only role is "reviewer" is granted by
`roles=["admin"], resource="users", method="GET"`. -/
theorem C3_role_or_permission (resolve : String → List String) (u : UserP)
    (rr : List String) (res m : String) (hact : u.is_active = true)
    (hrr : rr ≠ []) (hres : res ≠ "") (hm : m ≠ "") :
    (check_access (some rr) (some res) (some m) resolve u = .granted ↔
      (∃ role ∈ rr, role ∈ resolve u.id) ∨
        has_permission (resolve u.id) res m = true) ∧
    (resolve u.id = ["reviewer"] →
      check_access (some ["admin"]) (some "users") (some "GET") resolve u = .granted) := by
  have hroles : rolesTruthy (some rr) = true := by
    cases rr with
    | nil => exact absurd rfl hrr
    | cons a t => rfl
  have hres' : strTruthy (some res) = true := by
    have : res.isEmpty = false :=
      Bool.eq_false_iff.mpr fun h => hres ((String.isEmpty_iff res).mp h)
    simp [strTruthy, this]
  have hm' : strTruthy (some m) = true := by
    have : m.isEmpty = false :=
      Bool.eq_false_iff.mpr fun h => hm ((String.isEmpty_iff m).mp h)
    simp [strTruthy, this]
  constructor
  · rw [check_access]
    simp only [hact, Bool.not_true, Bool.false_eq_true, if_false, hroles, hres', hm',
      Bool.and_self, Bool.not_false, Bool.false_and, Bool.and_false, if_true,
      Bool.true_and, Option.getD_some]
    by_cases h1 : (rr.any fun role => (resolve u.id).contains role) = true
    · rw [if_pos h1]
      refine iff_of_true rfl (Or.inl ?_)
      simpa [List.any_eq_true] using h1
    · rw [if_neg h1]
      by_cases h2 : has_permission (resolve u.id) res m = true
      · rw [if_pos h2]
        exact iff_of_true rfl (Or.inr h2)
      · rw [if_neg h2]
        refine iff_of_false (by simp) ?_
        rintro (hit | hit)
        · exact h1 (by simpa [List.any_eq_true] using hit)
        · exact h2 hit
  · intro hrev
    rw [check_access]
    simp only [hact, Bool.not_true, Bool.false_eq_true, if_false, hrev]
    decide

/-- Witness for C3 at a concrete input: an active reviewer-only principal
passes the combined admin-role-or-users:GET guard through the permission
branch. -/
theorem C3_role_or_permission_witness :
    check_access (some ["admin"]) (some "users") (some "GET")
      (fun _ => ["reviewer"]) { id := "u1", is_active := true } = .granted :=
  (C3_role_or_permission (fun _ => ["reviewer"]) { id := "u1", is_active := true }
    ["admin"] "users" "GET" rfl (by decide) (by decide) (by decide)).2 rfl

/-- C4: no implicit admin bypass: an active principal whose only role is
"admin" is refused by a pure role guard requiring "reviewer" (no resource
or method supplied). -/
theorem C4_no_admin_bypass (resolve : String → List String) (u : UserP)
    (hact : u.is_active = true) (hadmin : resolve u.id = ["admin"]) :
    check_access (some ["reviewer"]) none none resolve u = .forbidden := by
  rw [check_access]
  simp only [hact, Bool.not_true, Bool.false_eq_true, if_false, hadmin]
  rfl

/-- Witness for C4 at a concrete input. -/
theorem C4_no_admin_bypass_witness :
    check_access (some ["reviewer"]) none none (fun _ => ["admin"])
      { id := "u1", is_active := true } = .forbidden :=
  C4_no_admin_bypass (fun _ => ["admin"]) { id := "u1", is_active := true } rfl rfl

/-- C1: a challenge row admits at most `max_attempts` verification calls:
a fetched row always satisfies `attempts < max_attempts` (the filter runs
before the increment), each call that fetches a row increments exactly
that row's counter by one, a call that finds no eligible row returns false
and leaves the table untouched, and the bound
`attempts ≤ max_attempts` is preserved for every row. -/
theorem C1_attempt_limit (svc : OTPService) (db : List OTPRow) (now : Int)
    (phone code : String) :
    (∀ r, svc.get_valid_otp db now phone = some r →
      r.attempts < svc.cfg.max_attempts ∧
      ∃ r', findById (svc.verify_otp db now phone code).2 r.id = some r' ∧
            r'.attempts = r.attempts + 1) ∧
    (svc.get_valid_otp db now phone = none →
      svc.verify_otp db now phone code = (false, db)) ∧
    ((∀ x ∈ db, x.attempts ≤ svc.cfg.max_attempts) →
      ∀ x ∈ (svc.verify_otp db now phone code).2, x.attempts ≤ svc.cfg.max_attempts) := by
  refine ⟨?_, fun h => verify_otp_of_none h, ?_⟩
  · intro r h
    obtain ⟨hmem, hel⟩ := get_valid_otp_some h
    have hlt := (eligible_iff.mp hel).2.2.2
    have hg : ¬ r.attempts + 1 > svc.cfg.max_attempts := by omega
    refine ⟨hlt, ?_⟩
    by_cases hh : svc.hash_otp code phone = r.otp_hash
    · rw [verify_otp_of_right h hg hh]
      exact ⟨_, findById_updateRow rfl ⟨r, hmem, rfl⟩, rfl⟩
    · rw [verify_otp_of_wrong h hg hh]
      exact ⟨_, findById_updateRow rfl ⟨r, hmem, rfl⟩, rfl⟩
  · intro hall x hx
    cases hr : svc.get_valid_otp db now phone with
    | none =>
      rw [verify_otp_of_none hr] at hx
      exact hall x hx
    | some r =>
      obtain ⟨hmem, hel⟩ := get_valid_otp_some hr
      have hlt := (eligible_iff.mp hel).2.2.2
      have hg : ¬ r.attempts + 1 > svc.cfg.max_attempts := by omega
      have key : ∀ r'' : OTPRow, r''.attempts = r.attempts + 1 →
          x ∈ updateRow db r.id r'' → x.attempts ≤ svc.cfg.max_attempts := by
        intro r'' hr'' hx'
        simp only [updateRow] at hx'
        rcases List.mem_map.mp hx' with ⟨y, hy, hfy⟩
        by_cases hid : (y.id == r.id) = true
        · rw [if_pos hid] at hfy
          rw [← hfy, hr'']
          omega
        · rw [if_neg hid] at hfy
          exact hfy ▸ hall y hy
      by_cases hh : svc.hash_otp code phone = r.otp_hash
      · rw [verify_otp_of_right hr hg hh] at hx
        exact key _ rfl hx
      · rw [verify_otp_of_wrong hr hg hh] at hx
        exact key _ rfl hx

/-- Witness for C1 at a concrete input: a fresh one-row table, a wrong
code; the fetched row has its counter bumped to 1. -/
theorem C1_attempt_limit_witness :
    svcEx.get_valid_otp dbEx 1 phoneEx = some rowEx ∧
    rowEx.attempts < svcEx.cfg.max_attempts ∧
    (∃ r', findById (svcEx.verify_otp dbEx 1 phoneEx "000000").2 rowEx.id = some r' ∧
           r'.attempts = rowEx.attempts + 1) :=
  ⟨rfl, ((C1_attempt_limit svcEx dbEx 1 phoneEx "000000").1 rowEx rfl).1,
    ((C1_attempt_limit svcEx dbEx 1 phoneEx "000000").1 rowEx rfl).2⟩

/-- C10: the `attempts > max_attempts` early return inside `verify_otp` is
dead code: a fetched row satisfies `attempts < max_attempts`, so after the
single increment `attempts + 1 ≤ max_attempts`, and the call always
reaches the hash comparison (its Boolean result is exactly the comparison
of the keyed hash with the stored one). -/
theorem C10_guard_unreachable (svc : OTPService) (db : List OTPRow) (now : Int)
    (phone code : String) :
    ∀ r, svc.get_valid_otp db now phone = some r →
      r.attempts + 1 ≤ svc.cfg.max_attempts ∧
      (svc.verify_otp db now phone code).1 = (svc.hash_otp code phone == r.otp_hash) := by
  intro r h
  have hlt := (eligible_iff.mp (get_valid_otp_some h).2).2.2.2
  have hg : ¬ r.attempts + 1 > svc.cfg.max_attempts := by omega
  refine ⟨by omega, ?_⟩
  by_cases hh : svc.hash_otp code phone = r.otp_hash
  · rw [verify_otp_of_right h hg hh]
    simp [hh]
  · rw [verify_otp_of_wrong h hg hh]
    simp [hh]

/-- Witness for C10 at a concrete input. -/
theorem C10_guard_unreachable_witness :
    rowEx.attempts + 1 ≤ svcEx.cfg.max_attempts ∧
    (svcEx.verify_otp dbEx 1 phoneEx "000000").1 =
      (svcEx.hash_otp "000000" phoneEx == rowEx.otp_hash) :=
  C10_guard_unreachable svcEx dbEx 1 phoneEx "000000" rowEx rfl

/-- C5: `verify_otp` returns true iff an eligible row exists (the most
recently created one is the one fetched) and the keyed hash of the
submitted code equals its stored hash; on success the fetched row is
marked verified, so when it was the only eligible row an immediately
repeated call (same or later time, any code) returns false and changes
nothing. -/
theorem C5_verify_success (svc : OTPService) (db : List OTPRow) (now : Int)
    (phone code : String) :
    ((svc.verify_otp db now phone code).1 = true ↔
      ∃ r, svc.get_valid_otp db now phone = some r ∧
        svc.hash_otp code phone = r.otp_hash) ∧
    (∀ r, svc.get_valid_otp db now phone = some r →
      (∀ x ∈ db, eligible svc now phone x = true → x.created_at ≤ r.created_at) ∧
      (svc.hash_otp code phone = r.otp_hash →
        findById (svc.verify_otp db now phone code).2 r.id =
          some { r with attempts := r.attempts + 1, is_verified := true,
                        updated_at := now } ∧
        ((∀ x ∈ db, eligible svc now phone x = true → x.id = r.id) →
          ∀ now2 code2, now ≤ now2 →
            svc.verify_otp (svc.verify_otp db now phone code).2 now2 phone code2 =
              (false, (svc.verify_otp db now phone code).2)))) := by
  constructor
  · constructor
    · intro h1
      cases hr : svc.get_valid_otp db now phone with
      | none =>
        rw [verify_otp_of_none hr] at h1
        simp at h1
      | some r =>
        have hlt := (eligible_iff.mp (get_valid_otp_some hr).2).2.2.2
        have hg : ¬ r.attempts + 1 > svc.cfg.max_attempts := by omega
        by_cases hh : svc.hash_otp code phone = r.otp_hash
        · exact ⟨r, rfl, hh⟩
        · rw [verify_otp_of_wrong hr hg hh] at h1
          simp at h1
    · rintro ⟨r, hr, hh⟩
      have hlt := (eligible_iff.mp (get_valid_otp_some hr).2).2.2.2
      have hg : ¬ r.attempts + 1 > svc.cfg.max_attempts := by omega
      rw [verify_otp_of_right hr hg hh]
  · intro r hr
    refine ⟨get_valid_otp_latest hr, fun hh => ?_⟩
    have hlt := (eligible_iff.mp (get_valid_otp_some hr).2).2.2.2
    have hg : ¬ r.attempts + 1 > svc.cfg.max_attempts := by omega
    rw [verify_otp_of_right hr hg hh]
    constructor
    · exact findById_updateRow rfl ⟨r, (get_valid_otp_some hr).1, rfl⟩
    · intro huniq now2 code2 hnow
      refine verify_otp_of_none (get_valid_otp_eq_none.mpr ?_)
      intro x hx
      simp only [updateRow] at hx
      rcases List.mem_map.mp hx with ⟨y, hy, hfy⟩
      by_cases hid : (y.id == r.id) = true
      · rw [if_pos hid] at hfy
        refine Bool.eq_false_iff.mpr fun he => ?_
        have hv := (eligible_iff.mp he).2.2.1
        rw [← hfy] at hv
        simp at hv
      · rw [if_neg hid] at hfy
        refine Bool.eq_false_iff.mpr fun he => ?_
        rw [← hfy] at he
        have he' : eligible svc now phone y = true := by
          rcases eligible_iff.mp he with ⟨hp, hex, hv, ha⟩
          exact eligible_iff.mpr ⟨hp, lt_of_le_of_lt hnow hex, hv, ha⟩
        exact hid (by simp [huniq y hy he'])

/-- Witness for C5 at a concrete input: the correct code verifies the only
row, the row comes back verified, and repeating the same correct code one
minute later fails without any further change. -/
theorem C5_verify_success_witness :
    findById (svcEx.verify_otp dbEx 1 phoneEx "123456").2 rowEx.id =
      some { rowEx with attempts := rowEx.attempts + 1, is_verified := true,
                        updated_at := 1 } ∧
    svcEx.verify_otp (svcEx.verify_otp dbEx 1 phoneEx "123456").2 2 phoneEx "123456" =
      (false, (svcEx.verify_otp dbEx 1 phoneEx "123456").2) :=
  ⟨(((C5_verify_success svcEx dbEx 1 phoneEx "123456").2 rowEx rfl).2 rfl).1,
   (((C5_verify_success svcEx dbEx 1 phoneEx "123456").2 rowEx rfl).2 rfl).2
     (by decide) 2 "123456" (by decide)⟩
